import Mathlib

/-!
Verification of the hunt-mmr attribute-mapping codec.

The repository turns a flat, index-addressed attribute namespace (string
keys and string values taken from an XML element) into typed Team records
and back.  The concrete entity layer (`SerializableTeam` in
`src/hunt/attributes/team.py`) and the surrounding file-modified handler
(`src/main.py`) are present in the source tree and are embedded directly.
The generic codec base class (`src/hunt/attributes/xml/serializable.py`)
and the team enumerator (`parse_teams`) are not part of the source tree;
they are modelled from the specification where noted.
-/

namespace HuntMMR

/-! ## Attribute store

Modelled from the spec: section 4.1 "Attribute Store" — the backing
`XmlElement` wrapper is absent from the source tree.  The contract is
`get(key) -> Optional<string>` and `set(key, value)`; after `set k v`,
`get k` returns `v` and every other key is unchanged.  The store is
represented as an association list in which the most recent binding for a
key wins, which realises exactly that observable contract. -/

abbrev AttrStore := List (String × String)

def getAttr : AttrStore → String → Option String
  | [], _ => none
  | (k, v) :: rest, key => if k = key then some v else getAttr rest key

def setAttr (root : AttrStore) (key value : String) : AttrStore :=
  (key, value) :: root

/-! ## Scalar kinds, errors and coercion

Modelled from the spec: section 4.4 "Codec" — the generic
serialize/deserialize routines live in `src/hunt/attributes/xml/serializable.py`,
which is absent from the source tree.  Integer values are encoded as
decimal strings and parsed back with a failure on non-numeric text;
Boolean values are encoded as the lowercase literals "true"/"false" and
matched case-insensitively on decode; String values pass through
unchanged. -/

inductive ScalarKind where
  | Integer : ScalarKind
  | Boolean : ScalarKind
  | Str : ScalarKind
deriving DecidableEq, Repr

inductive DeserializeError where
  | MissingAttributeError : String → DeserializeError
  | TypeCoercionError : String → String → ScalarKind → DeserializeError
deriving DecidableEq, Repr

deriving instance DecidableEq for Except

/-- Character for a single decimal digit value; values ten and above are
clamped to the nine digit (they never arise: every call site has `n < 10`). -/
def digitChar (n : Nat) : Char :=
  if n = 0 then '0' else if n = 1 then '1' else if n = 2 then '2'
  else if n = 3 then '3' else if n = 4 then '4' else if n = 5 then '5'
  else if n = 6 then '6' else if n = 7 then '7' else if n = 8 then '8' else '9'

/-- Numeric value of a decimal digit character. -/
def charToDigit (c : Char) : Nat := c.toNat - 48

/-- Big-endian digit-character list of a natural number; the first argument
is recursion fuel, sufficient whenever `n < fuel`. -/
def toDecimalAux : Nat → Nat → List Char
  | 0, _ => []
  | fuel + 1, n =>
    if n < 10 then [digitChar n]
    else toDecimalAux fuel (n / 10) ++ [digitChar (n % 10)]

/-- Decimal string of a natural number (embeds Python's `str` on a
non-negative `int`). -/
def natToDecimal (n : Nat) : String := ⟨toDecimalAux (n + 1) n⟩

/-- Value of a little-endian list of digit values. -/
def valOfDigits : List Nat → Nat
  | [] => 0
  | d :: ds => d + 10 * valOfDigits ds

/-- Value of a big-endian list of decimal digit characters. -/
def decodeDigits (l : List Char) : Nat := valOfDigits (l.reverse.map charToDigit)

/-- Modelled from the spec: "Integer → decimal string" (embeds Python's
`str` on an `int`, with a leading minus sign for negatives). -/
def encodeInt (i : Int) : String :=
  if i < 0 then "-" ++ natToDecimal i.natAbs else natToDecimal i.natAbs

/-- Modelled from the spec: "Integer: parse decimal, fails ... on
non-numeric text" (embeds Python's `int` on a decimal string). -/
def decodeInt (s : String) : Option Int :=
  match s.data with
  | [] => none
  | c :: rest =>
    if c = '-' then
      if rest ≠ [] ∧ rest.all Char.isDigit then some (-(decodeDigits rest : Int))
      else none
    else if (c :: rest).all Char.isDigit then some ((decodeDigits (c :: rest) : Int))
    else none

/-- Modelled from the spec: "Boolean → a fixed lowercase literal pair". -/
def encodeBool (b : Bool) : String := if b then "true" else "false"

def lowerChar (c : Char) : Char :=
  if 'A' ≤ c ∧ c ≤ 'Z' then Char.ofNat (c.toNat + 32) else c

def lowerString (s : String) : String := ⟨s.data.map lowerChar⟩

/-- Modelled from the spec: "Boolean: match against recognized literal set,
case-insensitive". -/
def decodeBool (s : String) : Option Bool :=
  if lowerString s = "true" then some true
  else if lowerString s = "false" then some false
  else none

/-- Attribute key from an entity prefix and a field suffix
(spec section 3: `prefix + "_" + suffix`). -/
def mkKey (pfx sfx : String) : String := pfx ++ "_" ++ sfx

/-- Read a required attribute and coerce it to an integer
(modelled from the spec, section 4.4 Deserialize). -/
def getIntAttr (root : AttrStore) (key : String) : Except DeserializeError Int :=
  match getAttr root key with
  | none => .error (.MissingAttributeError key)
  | some raw =>
    match decodeInt raw with
    | some i => .ok i
    | none => .error (.TypeCoercionError key raw .Integer)

/-- Read a required attribute and coerce it to a boolean
(modelled from the spec, section 4.4 Deserialize). -/
def getBoolAttr (root : AttrStore) (key : String) : Except DeserializeError Bool :=
  match getAttr root key with
  | none => .error (.MissingAttributeError key)
  | some raw =>
    match decodeBool raw with
    | some b => .ok b
    | none => .error (.TypeCoercionError key raw .Boolean)

/-! ## The Team entity (`src/hunt/attributes/team.py`) -/

/-- Embeds the frozen dataclass `SerializableTeam`. -/
structure SerializableTeam where
  handicap : Int
  is_invite : Bool
  mmr : Int
  players_count : Int
  own_team : Bool
deriving DecidableEq, Repr

namespace SerializableTeam

/-- Embeds `SerializableTeam._generate_prefix`:
`f"MissionBagTeam_{team_id}"`. -/
def generatePfx (team_id : Nat) : String := "MissionBagTeam_" ++ natToDecimal team_id

/-- Embeds the generator `SerializableTeam._data_mappings`: the
(member name, attribute suffix) pairs in yield order. -/
def dataMappings : List (String × String) :=
  [("handicap", "handicap"),
   ("is_invite", "isinvite"),
   ("mmr", "mmr"),
   ("players_count", "numplayers"),
   ("own_team", "ownteam")]

/-- Member values of a team paired with their wire suffixes, in
`dataMappings` order, each encoded by its declared scalar kind
(`int` fields as decimal, `bool` fields as lowercase literals). -/
def fieldValues (t : SerializableTeam) : List (String × String) :=
  [("handicap", encodeInt t.handicap),
   ("isinvite", encodeBool t.is_invite),
   ("mmr", encodeInt t.mmr),
   ("numplayers", encodeInt t.players_count),
   ("ownteam", encodeBool t.own_team)]

/-- Modelled from the spec: `Serializable.serialize` (section 4.4) — for
each field mapping, in registry order, set `prefix + "_" + suffix` to the
encoded member value. -/
def serializeFields (root : AttrStore) (pfx : String) : List (String × String) → AttrStore
  | [] => root
  | (sfx, v) :: rest => serializeFields (setAttr root (mkKey pfx sfx) v) pfx rest

/-- Embeds `Serializable.serialize` specialised to `SerializableTeam`
(the base class is modelled from the spec, section 4.4 Serialize). -/
def serialize (t : SerializableTeam) (root : AttrStore) (pfx : String) : AttrStore :=
  serializeFields root pfx (fieldValues t)

/-- Embeds `Serializable.deserialize` specialised to `SerializableTeam`
(the base class is modelled from the spec, section 4.4 Deserialize): for
each field mapping in registry order, look the key up — absent keys raise
`MissingAttributeError`, undecodable values raise `TypeCoercionError` —
and construct the entity from all decoded values in one atomic step. -/
def deserialize (root : AttrStore) (pfx : String) : Except DeserializeError SerializableTeam := do
  let handicap ← getIntAttr root (mkKey pfx "handicap")
  let is_invite ← getBoolAttr root (mkKey pfx "isinvite")
  let mmr ← getIntAttr root (mkKey pfx "mmr")
  let players_count ← getIntAttr root (mkKey pfx "numplayers")
  let own_team ← getBoolAttr root (mkKey pfx "ownteam")
  return { handicap := handicap, is_invite := is_invite, mmr := mmr,
           players_count := players_count, own_team := own_team }

/-- Embeds `SerializableTeam.serialize(root, team_id=...)`: generate the
team prefix, then serialize under it. -/
def serializeTeam (t : SerializableTeam) (root : AttrStore) (team_id : Nat) : AttrStore :=
  t.serialize root (generatePfx team_id)

/-- Embeds `SerializableTeam.deserialize(root, team_id)`: generate the
team prefix, then deserialize it. -/
def deserializeTeam (root : AttrStore) (team_id : Nat) : Except DeserializeError SerializableTeam :=
  deserialize root (generatePfx team_id)

end SerializableTeam

/-! ## Decimal conversion lemmas -/

theorem digitChar_isDigit (n : Nat) : (digitChar n).isDigit = true := by
  unfold digitChar
  split_ifs <;> decide

theorem charToDigit_digitChar {n : Nat} (h : n < 10) : charToDigit (digitChar n) = n := by
  interval_cases n <;> rfl

theorem isDigit_ne_dash {c : Char} (h : c.isDigit = true) : c ≠ '-' := by
  intro he
  rw [he] at h
  exact absurd h (by decide)

theorem toDecimalAux_ne_nil {fuel n : Nat} (h : n < fuel) : toDecimalAux fuel n ≠ [] := by
  cases fuel with
  | zero => omega
  | succ f =>
    unfold toDecimalAux
    split
    · simp
    · simp

theorem isDigit_of_mem_toDecimalAux {fuel n : Nat} {c : Char}
    (hc : c ∈ toDecimalAux fuel n) : c.isDigit = true := by
  induction fuel generalizing n with
  | zero => simp [toDecimalAux] at hc
  | succ f ih =>
    unfold toDecimalAux at hc
    split at hc
    · rcases List.mem_singleton.mp hc with rfl
      exact digitChar_isDigit _
    · rcases List.mem_append.mp hc with h | h
      · exact ih h
      · rcases List.mem_singleton.mp h with rfl
        exact digitChar_isDigit _

theorem decodeDigits_toDecimalAux {fuel n : Nat} (h : n < fuel) :
    decodeDigits (toDecimalAux fuel n) = n := by
  induction fuel generalizing n with
  | zero => omega
  | succ f ih =>
    unfold toDecimalAux
    split
    · next h10 =>
      simp [decodeDigits, valOfDigits, charToDigit_digitChar h10]
    · next h10 =>
      have hdiv : n / 10 < f := by omega
      have hmod : n % 10 < 10 := Nat.mod_lt _ (by omega)
      have := ih hdiv
      simp only [decodeDigits, List.reverse_append, List.reverse_cons,
        List.reverse_nil, List.nil_append, List.cons_append, List.map_cons,
        valOfDigits, charToDigit_digitChar hmod] at this ⊢
      omega

theorem decodeDigits_natToDecimal (n : Nat) : decodeDigits (natToDecimal n).data = n :=
  decodeDigits_toDecimalAux (Nat.lt_succ_self n)

/-! ## Scalar round-trip lemmas -/

theorem strData_append (a b : String) : (a ++ b).data = a.data ++ b.data := by
  cases a
  cases b
  rfl

theorem string_append_left_cancel {p a b : String} (h : p ++ a = p ++ b) : a = b := by
  have hd := congrArg String.data h
  rw [strData_append, strData_append] at hd
  have hab := List.append_cancel_left hd
  cases a
  cases b
  exact congrArg String.mk hab

theorem mkKey_ne {s t : String} (h : s ≠ t) (pfx : String) : mkKey pfx s ≠ mkKey pfx t :=
  fun he => h (string_append_left_cancel he)

theorem decodeInt_cons {c : Char} {rest : List Char} (s : String) (h : s.data = c :: rest) :
    decodeInt s =
      if c = '-' then
        if rest ≠ [] ∧ rest.all Char.isDigit then some (-(decodeDigits rest : Int)) else none
      else if (c :: rest).all Char.isDigit then some ((decodeDigits (c :: rest) : Int))
      else none := by
  unfold decodeInt
  rw [h]

theorem all_isDigit_toDecimalAux (fuel n : Nat) :
    (toDecimalAux fuel n).all Char.isDigit = true := by
  rw [List.all_eq_true]
  intro c hc
  exact isDigit_of_mem_toDecimalAux hc

theorem decodeInt_encodeInt (i : Int) : decodeInt (encodeInt i) = some i := by
  unfold encodeInt
  split_ifs with hneg
  · -- negative integers: a leading minus sign followed by the digits
    have hlt : i.natAbs < i.natAbs + 1 := Nat.lt_succ_self _
    have hdata : ("-" ++ natToDecimal i.natAbs).data = '-' :: toDecimalAux (i.natAbs + 1) i.natAbs := by
      rw [strData_append]; rfl
    rw [decodeInt_cons _ hdata, if_pos rfl,
      if_pos (And.intro (toDecimalAux_ne_nil hlt) (all_isDigit_toDecimalAux _ _)),
      decodeDigits_toDecimalAux hlt]
    congr 1
    omega
  · -- non-negative integers: just the digits
    have hlt : i.natAbs < i.natAbs + 1 := Nat.lt_succ_self _
    obtain ⟨c, rest, hcr⟩ := List.exists_cons_of_ne_nil (toDecimalAux_ne_nil hlt)
    have hdata : (natToDecimal i.natAbs).data = c :: rest := hcr
    have hcdig : c.isDigit = true := by
      refine isDigit_of_mem_toDecimalAux
        (show c ∈ toDecimalAux (i.natAbs + 1) i.natAbs from ?_)
      rw [hcr]
      exact List.mem_cons_self c rest
    rw [decodeInt_cons _ hdata, if_neg (isDigit_ne_dash hcdig), if_pos, ← hcr,
      decodeDigits_toDecimalAux hlt]
    · congr 1
      omega
    · rw [← hcr]
      exact all_isDigit_toDecimalAux _ _

theorem decodeBool_encodeBool (b : Bool) : decodeBool (encodeBool b) = some b := by
  cases b <;> rfl

/-! ## Attribute store lemmas -/

theorem getAttr_setAttr_same (root : AttrStore) (k v : String) :
    getAttr (setAttr root k v) k = some v := by
  simp [setAttr, getAttr]

theorem getAttr_setAttr_ne (root : AttrStore) {k k' : String} (h : k ≠ k') (v : String) :
    getAttr (setAttr root k v) k' = getAttr root k' := by
  simp [setAttr, getAttr, h]

theorem getIntAttr_of_get {root : AttrStore} {key v : String} {i : Int}
    (hget : getAttr root key = some v) (hdec : decodeInt v = some i) :
    getIntAttr root key = .ok i := by
  unfold getIntAttr
  simp only [hget, hdec]

theorem getBoolAttr_of_get {root : AttrStore} {key v : String} {b : Bool}
    (hget : getAttr root key = some v) (hdec : decodeBool v = some b) :
    getBoolAttr root key = .ok b := by
  unfold getBoolAttr
  simp only [hget, hdec]

/-- C1: for every Team entity constructed from valid field values, and for
every attribute store and every choice of prefix string, serializing the
entity into the store under that prefix and then deserializing that same
prefix yields an entity equal to the original. -/
theorem team_serialize_deserialize_roundtrip
    (t : SerializableTeam) (root : AttrStore) (pfx : String) :
    SerializableTeam.deserialize (SerializableTeam.serialize t root pfx) pfx = .ok t := by
  have hne : ∀ {s u : String}, s ≠ u → (mkKey pfx s = mkKey pfx u) = False :=
    fun h => eq_false (mkKey_ne h pfx)
  have hg1 : getAttr (SerializableTeam.serialize t root pfx) (mkKey pfx "handicap")
      = some (encodeInt t.handicap) := by
    simp only [SerializableTeam.serialize, SerializableTeam.fieldValues,
      SerializableTeam.serializeFields, setAttr, getAttr,
      hne (show ("ownteam" : String) ≠ "handicap" by decide),
      hne (show ("numplayers" : String) ≠ "handicap" by decide),
      hne (show ("mmr" : String) ≠ "handicap" by decide),
      hne (show ("isinvite" : String) ≠ "handicap" by decide),
      if_false, if_true]
  have hg2 : getAttr (SerializableTeam.serialize t root pfx) (mkKey pfx "isinvite")
      = some (encodeBool t.is_invite) := by
    simp only [SerializableTeam.serialize, SerializableTeam.fieldValues,
      SerializableTeam.serializeFields, setAttr, getAttr,
      hne (show ("ownteam" : String) ≠ "isinvite" by decide),
      hne (show ("numplayers" : String) ≠ "isinvite" by decide),
      hne (show ("mmr" : String) ≠ "isinvite" by decide),
      if_false, if_true]
  have hg3 : getAttr (SerializableTeam.serialize t root pfx) (mkKey pfx "mmr")
      = some (encodeInt t.mmr) := by
    simp only [SerializableTeam.serialize, SerializableTeam.fieldValues,
      SerializableTeam.serializeFields, setAttr, getAttr,
      hne (show ("ownteam" : String) ≠ "mmr" by decide),
      hne (show ("numplayers" : String) ≠ "mmr" by decide),
      if_false, if_true]
  have hg4 : getAttr (SerializableTeam.serialize t root pfx) (mkKey pfx "numplayers")
      = some (encodeInt t.players_count) := by
    simp only [SerializableTeam.serialize, SerializableTeam.fieldValues,
      SerializableTeam.serializeFields, setAttr, getAttr,
      hne (show ("ownteam" : String) ≠ "numplayers" by decide),
      if_false, if_true]
  have hg5 : getAttr (SerializableTeam.serialize t root pfx) (mkKey pfx "ownteam")
      = some (encodeBool t.own_team) := by
    simp only [SerializableTeam.serialize, SerializableTeam.fieldValues,
      SerializableTeam.serializeFields, setAttr, getAttr, if_true]
  unfold SerializableTeam.deserialize
  rw [getIntAttr_of_get hg1 (decodeInt_encodeInt _),
    getBoolAttr_of_get hg2 (decodeBool_encodeBool _),
    getIntAttr_of_get hg3 (decodeInt_encodeInt _),
    getIntAttr_of_get hg4 (decodeInt_encodeInt _),
    getBoolAttr_of_get hg5 (decodeBool_encodeBool _)]
  rfl

/-! ## Outcome inversion lemmas for the field readers and the deserializer -/

theorem getIntAttr_missing {root : AttrStore} {key : String}
    (h : getAttr root key = none) :
    getIntAttr root key = .error (.MissingAttributeError key) := by
  unfold getIntAttr
  simp only [h]

theorem getBoolAttr_missing {root : AttrStore} {key : String}
    (h : getAttr root key = none) :
    getBoolAttr root key = .error (.MissingAttributeError key) := by
  unfold getBoolAttr
  simp only [h]

theorem getIntAttr_coerce {root : AttrStore} {key v : String}
    (hget : getAttr root key = some v) (hdec : decodeInt v = none) :
    getIntAttr root key = .error (.TypeCoercionError key v .Integer) := by
  unfold getIntAttr
  simp only [hget, hdec]

theorem getBoolAttr_coerce {root : AttrStore} {key v : String}
    (hget : getAttr root key = some v) (hdec : decodeBool v = none) :
    getBoolAttr root key = .error (.TypeCoercionError key v .Boolean) := by
  unfold getBoolAttr
  simp only [hget, hdec]

/-- Every run of `getIntAttr` ends in exactly one of the three declared
outcomes: missing key, coercion failure, or a decoded value. -/
theorem getIntAttr_cases (root : AttrStore) (key : String) :
    (getAttr root key = none
      ∧ getIntAttr root key = .error (.MissingAttributeError key))
    ∨ (∃ v, getAttr root key = some v ∧ decodeInt v = none
      ∧ getIntAttr root key = .error (.TypeCoercionError key v .Integer))
    ∨ (∃ v i, getAttr root key = some v ∧ decodeInt v = some i
      ∧ getIntAttr root key = .ok i) := by
  rcases hget : getAttr root key with _ | v
  · exact Or.inl ⟨rfl, getIntAttr_missing hget⟩
  · rcases hdec : decodeInt v with _ | i
    · exact Or.inr (Or.inl ⟨v, rfl, hdec, getIntAttr_coerce hget hdec⟩)
    · exact Or.inr (Or.inr ⟨v, i, rfl, hdec, getIntAttr_of_get hget hdec⟩)

/-- Every run of `getBoolAttr` ends in exactly one of the three declared
outcomes: missing key, coercion failure, or a decoded value. -/
theorem getBoolAttr_cases (root : AttrStore) (key : String) :
    (getAttr root key = none
      ∧ getBoolAttr root key = .error (.MissingAttributeError key))
    ∨ (∃ v, getAttr root key = some v ∧ decodeBool v = none
      ∧ getBoolAttr root key = .error (.TypeCoercionError key v .Boolean))
    ∨ (∃ v b, getAttr root key = some v ∧ decodeBool v = some b
      ∧ getBoolAttr root key = .ok b) := by
  rcases hget : getAttr root key with _ | v
  · exact Or.inl ⟨rfl, getBoolAttr_missing hget⟩
  · rcases hdec : decodeBool v with _ | b
    · exact Or.inr (Or.inl ⟨v, rfl, hdec, getBoolAttr_coerce hget hdec⟩)
    · exact Or.inr (Or.inr ⟨v, b, rfl, hdec, getBoolAttr_of_get hget hdec⟩)

namespace SerializableTeam

theorem deserialize_err_handicap {root : AttrStore} {pfx : String} {e : DeserializeError}
    (h : getIntAttr root (mkKey pfx "handicap") = .error e) :
    deserialize root pfx = .error e := by
  unfold deserialize
  rw [h]
  rfl

theorem deserialize_err_isinvite {root : AttrStore} {pfx : String} {i1 : Int}
    {e : DeserializeError}
    (h1 : getIntAttr root (mkKey pfx "handicap") = .ok i1)
    (h : getBoolAttr root (mkKey pfx "isinvite") = .error e) :
    deserialize root pfx = .error e := by
  unfold deserialize
  rw [h1, h]
  rfl

theorem deserialize_err_mmr {root : AttrStore} {pfx : String} {i1 : Int} {b2 : Bool}
    {e : DeserializeError}
    (h1 : getIntAttr root (mkKey pfx "handicap") = .ok i1)
    (h2 : getBoolAttr root (mkKey pfx "isinvite") = .ok b2)
    (h : getIntAttr root (mkKey pfx "mmr") = .error e) :
    deserialize root pfx = .error e := by
  unfold deserialize
  rw [h1, h2, h]
  rfl

theorem deserialize_err_numplayers {root : AttrStore} {pfx : String} {i1 : Int} {b2 : Bool}
    {i3 : Int} {e : DeserializeError}
    (h1 : getIntAttr root (mkKey pfx "handicap") = .ok i1)
    (h2 : getBoolAttr root (mkKey pfx "isinvite") = .ok b2)
    (h3 : getIntAttr root (mkKey pfx "mmr") = .ok i3)
    (h : getIntAttr root (mkKey pfx "numplayers") = .error e) :
    deserialize root pfx = .error e := by
  unfold deserialize
  rw [h1, h2, h3, h]
  rfl

theorem deserialize_err_ownteam {root : AttrStore} {pfx : String} {i1 : Int} {b2 : Bool}
    {i3 i4 : Int} {e : DeserializeError}
    (h1 : getIntAttr root (mkKey pfx "handicap") = .ok i1)
    (h2 : getBoolAttr root (mkKey pfx "isinvite") = .ok b2)
    (h3 : getIntAttr root (mkKey pfx "mmr") = .ok i3)
    (h4 : getIntAttr root (mkKey pfx "numplayers") = .ok i4)
    (h : getBoolAttr root (mkKey pfx "ownteam") = .error e) :
    deserialize root pfx = .error e := by
  unfold deserialize
  rw [h1, h2, h3, h4, h]
  rfl

theorem deserialize_ok_of_fields {root : AttrStore} {pfx : String} {i1 : Int} {b2 : Bool}
    {i3 i4 : Int} {b5 : Bool}
    (h1 : getIntAttr root (mkKey pfx "handicap") = .ok i1)
    (h2 : getBoolAttr root (mkKey pfx "isinvite") = .ok b2)
    (h3 : getIntAttr root (mkKey pfx "mmr") = .ok i3)
    (h4 : getIntAttr root (mkKey pfx "numplayers") = .ok i4)
    (h5 : getBoolAttr root (mkKey pfx "ownteam") = .ok b5) :
    deserialize root pfx = .ok ⟨i1, b2, i3, i4, b5⟩ := by
  unfold deserialize
  rw [h1, h2, h3, h4, h5]
  rfl

/-- Deserializing a prefix whose first registry key (the handicap key) is
absent fails with `MissingAttributeError` on that key. -/
theorem deserialize_missing_handicap {root : AttrStore} {pfx : String}
    (h : getAttr root (mkKey pfx "handicap") = none) :
    deserialize root pfx = .error (.MissingAttributeError (mkKey pfx "handicap")) :=
  deserialize_err_handicap (getIntAttr_missing h)

end SerializableTeam

/-! ## Entity enumerator

Modelled from the spec: section 4.5 "Entity Enumerator" — `parse_teams`
(in `src/hunt/attributes_parser.py`) is absent from the source tree.
Starting at team index 0 the enumerator repeatedly attempts
`Deserialize(Team, prefix(Team, [i]))`; the first index failing with
`MissingAttributeError` terminates the enumeration, while a
`TypeCoercionError` propagates as a hard failure of the whole parse.  The
second argument bounds the number of index-probing attempts, letting the
theorems quantify over "the number of index-probing attempts made beyond"
the last populated index. -/

def enumerateTeamsFrom (root : AttrStore) : Nat → Nat → Except DeserializeError (List SerializableTeam)
  | _, 0 => .ok []
  | i, fuel + 1 =>
    match SerializableTeam.deserializeTeam root i with
    | .ok t =>
      match enumerateTeamsFrom root (i + 1) fuel with
      | .ok ts => .ok (t :: ts)
      | .error e => .error e
    | .error (.MissingAttributeError _) => .ok []
    | .error (.TypeCoercionError k v kd) => .error (.TypeCoercionError k v kd)

/-- Modelled from the spec: the team enumeration entry point — probe
ascending team indices from zero, making at most `attempts` probes. -/
def parse_teams (root : AttrStore) (attempts : Nat) : Except DeserializeError (List SerializableTeam) :=
  enumerateTeamsFrom root 0 attempts

/-- On a store that deserializes for every index below `n` and whose
handicap keys are absent from index `n` on, enumeration starting at any
index `i ≤ n` succeeds with exactly `n - i` teams, for every sufficient
probe budget. -/
theorem enumerateTeamsFrom_dense (root : AttrStore) (n : Nat) :
    ∀ fuel i,
      (∀ j, i ≤ j → j < n → ∃ t, SerializableTeam.deserializeTeam root j = .ok t) →
      (∀ j, n ≤ j → getAttr root (mkKey (SerializableTeam.generatePfx j) "handicap") = none) →
      i ≤ n → n - i < fuel →
      ∃ ts, enumerateTeamsFrom root i fuel = .ok ts ∧ ts.length = n - i := by
  intro fuel
  induction fuel with
  | zero => intro i _ _ _ hf; omega
  | succ f ih =>
    intro i hpres habs hin hfuel
    by_cases hi : i < n
    · obtain ⟨t, ht⟩ := hpres i le_rfl hi
      obtain ⟨ts, hts, hlen⟩ :=
        ih (i + 1) (fun j hj1 hj2 => hpres j (by omega) hj2) habs (by omega) (by omega)
      refine ⟨t :: ts, ?_, ?_⟩
      · unfold enumerateTeamsFrom
        simp only [ht, hts]
      · simp only [List.length_cons, hlen]
        omega
    · have hmiss := habs i (by omega)
      have hdeser : SerializableTeam.deserializeTeam root i
          = .error (.MissingAttributeError (mkKey (SerializableTeam.generatePfx i) "handicap")) := by
        unfold SerializableTeam.deserializeTeam
        exact SerializableTeam.deserialize_missing_handicap hmiss
      refine ⟨[], ?_, by simp only [List.length_nil]; omega⟩
      unfold enumerateTeamsFrom
      simp only [hdeser]

/-- C2: for every attribute store whose team-level attributes are present
(and deserializable) exactly for the dense team indices `0..n-1` and
absent for index `n` and beyond, team enumeration terminates and returns
exactly `n` teams, regardless of the number of index-probing attempts
made beyond the last populated index; in particular (`n = 0`, as the
witness instantiates it) a store with no index-0 team attributes yields
an empty team sequence as a valid, non-error outcome rather than raising. -/
theorem enumeration_of_dense_store
    (root : AttrStore) (n : Nat)
    (hpresent : ∀ i, i < n → ∃ t, SerializableTeam.deserializeTeam root i = .ok t)
    (habsent : ∀ i, n ≤ i → ∀ p ∈ SerializableTeam.dataMappings,
        getAttr root (mkKey (SerializableTeam.generatePfx i) p.2) = none)
    (attempts : Nat) (hatt : n < attempts) :
    ∃ ts, parse_teams root attempts = .ok ts ∧ ts.length = n := by
  have habs : ∀ j, n ≤ j → getAttr root (mkKey (SerializableTeam.generatePfx j) "handicap") = none :=
    fun j hj => habsent j hj ("handicap", "handicap") (by simp [SerializableTeam.dataMappings])
  obtain ⟨ts, h1, h2⟩ :=
    enumerateTeamsFrom_dense root n attempts 0 (fun j _ hj => hpresent j hj) habs
      (by omega) (by omega)
  exact ⟨ts, h1, by omega⟩

/-- Witness for C2: the empty store has no index-0 team attributes, and
enumeration on it returns the empty team sequence without an error. -/
theorem enumeration_of_dense_store_witness :
    ∃ ts, parse_teams [] 1 = .ok ts ∧ ts.length = 0 :=
  enumeration_of_dense_store [] 0 (fun i hi => absurd hi (by omega))
    (fun _ _ _ _ => rfl) 1 (by omega)

/-! ## Missing-key and coercion failure behaviour (claims C3 and C4) -/

/-- All attribute values that are present under the prefix decode
according to their declared scalar kinds. -/
def presentKeysDecodable (root : AttrStore) (pfx : String) : Prop :=
  (∀ v, getAttr root (mkKey pfx "handicap") = some v → decodeInt v ≠ none)
  ∧ (∀ v, getAttr root (mkKey pfx "isinvite") = some v → decodeBool v ≠ none)
  ∧ (∀ v, getAttr root (mkKey pfx "mmr") = some v → decodeInt v ≠ none)
  ∧ (∀ v, getAttr root (mkKey pfx "numplayers") = some v → decodeInt v ≠ none)
  ∧ (∀ v, getAttr root (mkKey pfx "ownteam") = some v → decodeBool v ≠ none)

/-- C3 counterexample: in a store holding only a non-numeric handicap
value, the isinvite registry key is absent, yet deserialization fails
with `TypeCoercionError` — not `MissingAttributeError` — because the
field walk reaches the malformed handicap value first.  So a store with
an absent required key need not fail with `MissingAttributeError`. -/
theorem missing_key_claim_counterexample :
    ("is_invite", "isinvite") ∈ SerializableTeam.dataMappings
    ∧ getAttr [("MissionBagTeam_0_handicap", "x")] (mkKey "MissionBagTeam_0" "isinvite") = none
    ∧ SerializableTeam.deserialize [("MissionBagTeam_0_handicap", "x")] "MissionBagTeam_0"
        = .error (.TypeCoercionError "MissionBagTeam_0_handicap" "x" .Integer)
    ∧ ∀ k, SerializableTeam.deserialize [("MissionBagTeam_0_handicap", "x")] "MissionBagTeam_0"
        ≠ .error (.MissingAttributeError k) := by
  refine ⟨by decide, by decide, by decide, ?_⟩
  intro k hk
  rw [show SerializableTeam.deserialize [("MissionBagTeam_0_handicap", "x")] "MissionBagTeam_0"
      = .error (.TypeCoercionError "MissionBagTeam_0_handicap" "x" .Integer) from by decide] at hk
  simp at hk

/-- C3 (amended): for every prefix and attribute store in which at least
one key formed from that prefix and a registry suffix is absent,
`deserialize` fails — it never returns a (partially populated) entity —
and, provided every value that is present under the prefix decodes
according to its declared kind, the failure is a `MissingAttributeError`
naming an absent registry key. -/
theorem deserialize_missing_key_fails (root : AttrStore) (pfx : String)
    (habs : ∃ p ∈ SerializableTeam.dataMappings, getAttr root (mkKey pfx p.2) = none) :
    (∃ e, SerializableTeam.deserialize root pfx = .error e)
    ∧ (presentKeysDecodable root pfx →
        ∃ k, SerializableTeam.deserialize root pfx = .error (.MissingAttributeError k)
          ∧ getAttr root k = none
          ∧ ∃ p ∈ SerializableTeam.dataMappings, k = mkKey pfx p.2) := by
  rcases getIntAttr_cases root (mkKey pfx "handicap") with
    ⟨hget1, herr1⟩ | ⟨v1, hget1, hdec1, herr1⟩ | ⟨v1, i1, hget1, hdec1, hok1⟩
  · have hd := SerializableTeam.deserialize_err_handicap herr1
    exact ⟨⟨_, hd⟩, fun _ =>
      ⟨_, hd, hget1, ⟨("handicap", "handicap"), by simp [SerializableTeam.dataMappings], rfl⟩⟩⟩
  · exact ⟨⟨_, SerializableTeam.deserialize_err_handicap herr1⟩,
      fun hwt => absurd hdec1 (hwt.1 v1 hget1)⟩
  · rcases getBoolAttr_cases root (mkKey pfx "isinvite") with
      ⟨hget2, herr2⟩ | ⟨v2, hget2, hdec2, herr2⟩ | ⟨v2, b2, hget2, hdec2, hok2⟩
    · have hd := SerializableTeam.deserialize_err_isinvite hok1 herr2
      exact ⟨⟨_, hd⟩, fun _ =>
        ⟨_, hd, hget2, ⟨("is_invite", "isinvite"), by simp [SerializableTeam.dataMappings], rfl⟩⟩⟩
    · exact ⟨⟨_, SerializableTeam.deserialize_err_isinvite hok1 herr2⟩,
        fun hwt => absurd hdec2 (hwt.2.1 v2 hget2)⟩
    · rcases getIntAttr_cases root (mkKey pfx "mmr") with
        ⟨hget3, herr3⟩ | ⟨v3, hget3, hdec3, herr3⟩ | ⟨v3, i3, hget3, hdec3, hok3⟩
      · have hd := SerializableTeam.deserialize_err_mmr hok1 hok2 herr3
        exact ⟨⟨_, hd⟩, fun _ =>
          ⟨_, hd, hget3, ⟨("mmr", "mmr"), by simp [SerializableTeam.dataMappings], rfl⟩⟩⟩
      · exact ⟨⟨_, SerializableTeam.deserialize_err_mmr hok1 hok2 herr3⟩,
          fun hwt => absurd hdec3 (hwt.2.2.1 v3 hget3)⟩
      · rcases getIntAttr_cases root (mkKey pfx "numplayers") with
          ⟨hget4, herr4⟩ | ⟨v4, hget4, hdec4, herr4⟩ | ⟨v4, i4, hget4, hdec4, hok4⟩
        · have hd := SerializableTeam.deserialize_err_numplayers hok1 hok2 hok3 herr4
          exact ⟨⟨_, hd⟩, fun _ =>
            ⟨_, hd, hget4,
              ⟨("players_count", "numplayers"), by simp [SerializableTeam.dataMappings], rfl⟩⟩⟩
        · exact ⟨⟨_, SerializableTeam.deserialize_err_numplayers hok1 hok2 hok3 herr4⟩,
            fun hwt => absurd hdec4 (hwt.2.2.2.1 v4 hget4)⟩
        · rcases getBoolAttr_cases root (mkKey pfx "ownteam") with
            ⟨hget5, herr5⟩ | ⟨v5, hget5, hdec5, herr5⟩ | ⟨v5, b5, hget5, hdec5, hok5⟩
          · have hd := SerializableTeam.deserialize_err_ownteam hok1 hok2 hok3 hok4 herr5
            exact ⟨⟨_, hd⟩, fun _ =>
              ⟨_, hd, hget5,
                ⟨("own_team", "ownteam"), by simp [SerializableTeam.dataMappings], rfl⟩⟩⟩
          · exact ⟨⟨_, SerializableTeam.deserialize_err_ownteam hok1 hok2 hok3 hok4 herr5⟩,
              fun hwt => absurd hdec5 (hwt.2.2.2.2 v5 hget5)⟩
          · exfalso
            obtain ⟨p, hp, hnone⟩ := habs
            simp only [SerializableTeam.dataMappings, List.mem_cons,
              List.mem_singleton, List.not_mem_nil, or_false] at hp
            rcases hp with rfl | rfl | rfl | rfl | rfl
            · rw [hget1] at hnone; exact absurd hnone (Option.some_ne_none v1)
            · rw [hget2] at hnone; exact absurd hnone (Option.some_ne_none v2)
            · rw [hget3] at hnone; exact absurd hnone (Option.some_ne_none v3)
            · rw [hget4] at hnone; exact absurd hnone (Option.some_ne_none v4)
            · rw [hget5] at hnone; exact absurd hnone (Option.some_ne_none v5)

/-- Witness for C3 (amended): on the empty store every registry key is
absent and every present key (there are none) decodes, so deserializing
fails with a `MissingAttributeError` naming an absent registry key. -/
theorem deserialize_missing_key_fails_witness :
    ∃ k, SerializableTeam.deserialize [] "p" = .error (.MissingAttributeError k)
      ∧ getAttr [] k = none
      ∧ ∃ p ∈ SerializableTeam.dataMappings, k = mkKey "p" p.2 :=
  by
  have hwt : presentKeysDecodable [] "p" := by
    unfold presentKeysDecodable
    refine ⟨?_, ?_, ?_, ?_, ?_⟩ <;> exact fun _ hv => nomatch hv
  exact (deserialize_missing_key_fails [] "p" ⟨("handicap", "handicap"), ⟨by decide, rfl⟩⟩).2 hwt

/-- C4 counterexample: a store in which the (Integer-mapped) mmr key
holds a non-numeric string but the handicap key is absent makes
deserialization fail with `MissingAttributeError`, not
`TypeCoercionError`: the absent earlier key is reached first.  So a
non-numeric Integer-field value does not by itself force a
`TypeCoercionError`. -/
theorem coercion_claim_counterexample :
    getAttr [("MissionBagTeam_0_mmr", "not-a-number")] (mkKey "MissionBagTeam_0" "mmr")
        = some "not-a-number"
    ∧ decodeInt "not-a-number" = none
    ∧ SerializableTeam.deserialize [("MissionBagTeam_0_mmr", "not-a-number")] "MissionBagTeam_0"
        = .error (.MissingAttributeError "MissionBagTeam_0_handicap")
    ∧ ∀ k v kd, SerializableTeam.deserialize
        [("MissionBagTeam_0_mmr", "not-a-number")] "MissionBagTeam_0"
        ≠ .error (.TypeCoercionError k v kd) := by
  refine ⟨by decide, by decide, by decide, ?_⟩
  intro k v kd hk
  rw [show SerializableTeam.deserialize [("MissionBagTeam_0_mmr", "not-a-number")] "MissionBagTeam_0"
      = .error (.MissingAttributeError "MissionBagTeam_0_handicap") from by decide] at hk
  simp at hk

/-- C4 (amended): a non-numeric string held by an Integer-mapped key
makes deserialization fail with `TypeCoercionError` on that key — never
an entity with a default or zero value — whenever the registry keys
before it read and decode successfully (for the handicap key, the first
in registry order, unconditionally); and a `TypeCoercionError` raised at
the probed index propagates as the failure of the whole enumeration — it
is never treated as an enumeration terminator. -/
theorem coercion_failure_is_hard :
    (∀ (root : AttrStore) (pfx v : String),
        getAttr root (mkKey pfx "handicap") = some v → decodeInt v = none →
        SerializableTeam.deserialize root pfx
          = .error (.TypeCoercionError (mkKey pfx "handicap") v .Integer))
    ∧ (∀ (root : AttrStore) (pfx v : String) (i1 : Int) (b2 : Bool),
        getIntAttr root (mkKey pfx "handicap") = .ok i1 →
        getBoolAttr root (mkKey pfx "isinvite") = .ok b2 →
        getAttr root (mkKey pfx "mmr") = some v → decodeInt v = none →
        SerializableTeam.deserialize root pfx
          = .error (.TypeCoercionError (mkKey pfx "mmr") v .Integer))
    ∧ (∀ (root : AttrStore) (pfx v : String) (i1 : Int) (b2 : Bool) (i3 : Int),
        getIntAttr root (mkKey pfx "handicap") = .ok i1 →
        getBoolAttr root (mkKey pfx "isinvite") = .ok b2 →
        getIntAttr root (mkKey pfx "mmr") = .ok i3 →
        getAttr root (mkKey pfx "numplayers") = some v → decodeInt v = none →
        SerializableTeam.deserialize root pfx
          = .error (.TypeCoercionError (mkKey pfx "numplayers") v .Integer))
    ∧ (∀ (root : AttrStore) (i fuel : Nat) (k v : String) (kd : ScalarKind),
        SerializableTeam.deserializeTeam root i = .error (.TypeCoercionError k v kd) →
        enumerateTeamsFrom root i (fuel + 1) = .error (.TypeCoercionError k v kd)) := by
  refine ⟨?_, ?_, ?_, ?_⟩
  · intro root pfx v hget hdec
    exact SerializableTeam.deserialize_err_handicap (getIntAttr_coerce hget hdec)
  · intro root pfx v i1 b2 h1 h2 hget hdec
    exact SerializableTeam.deserialize_err_mmr h1 h2 (getIntAttr_coerce hget hdec)
  · intro root pfx v i1 b2 i3 h1 h2 h3 hget hdec
    exact SerializableTeam.deserialize_err_numplayers h1 h2 h3 (getIntAttr_coerce hget hdec)
  · intro root i fuel k v kd h
    unfold enumerateTeamsFrom
    simp only [h]

/-- Witness for C4 (amended): a store whose handicap and isinvite values
are fine but whose mmr value is non-numeric fails with
`TypeCoercionError` on the mmr key, and on another concrete store the
same kind of error propagates out of the enumerator instead of ending
the enumeration. -/
theorem coercion_failure_is_hard_witness :
    SerializableTeam.deserialize
        [("MissionBagTeam_9_handicap", "5"), ("MissionBagTeam_9_isinvite", "false"),
         ("MissionBagTeam_9_mmr", "NaN")] "MissionBagTeam_9"
        = .error (.TypeCoercionError (mkKey "MissionBagTeam_9" "mmr") "NaN" .Integer)
    ∧ SerializableTeam.deserialize [("T_handicap", "oops")] "T"
        = .error (.TypeCoercionError (mkKey "T" "handicap") "oops" .Integer)
    ∧ enumerateTeamsFrom [("MissionBagTeam_0_handicap", "oops")] 0 1
        = .error (.TypeCoercionError "MissionBagTeam_0_handicap" "oops" .Integer) :=
  ⟨coercion_failure_is_hard.2.1
      [("MissionBagTeam_9_handicap", "5"), ("MissionBagTeam_9_isinvite", "false"),
       ("MissionBagTeam_9_mmr", "NaN")] "MissionBagTeam_9" "NaN" 5 false
      (by decide) (by decide) (by decide) (by decide),
   coercion_failure_is_hard.1 [("T_handicap", "oops")] "T" "oops" (by decide) (by decide),
   coercion_failure_is_hard.2.2.2 [("MissionBagTeam_0_handicap", "oops")] 0 0
     "MissionBagTeam_0_handicap" "oops" .Integer (by decide)⟩

/-! ## Decimal representation and prefix lemmas (claims C5 and C6) -/

theorem isDigit_toNat {c : Char} (h : c.isDigit = true) : 48 ≤ c.toNat ∧ c.toNat ≤ 57 := by
  simp only [Char.isDigit, ge_iff_le, Bool.and_eq_true, decide_eq_true_eq] at h
  obtain ⟨h1, h2⟩ := h
  rw [UInt32.le_def, BitVec.le_def] at h1 h2
  exact ⟨h1, h2⟩

theorem charToDigit_lt_ten {c : Char} (h : c.isDigit = true) : charToDigit c < 10 := by
  obtain ⟨h1, h2⟩ := isDigit_toNat h
  unfold charToDigit
  omega

theorem digitChar_toNat {n : Nat} (h : n < 10) : (digitChar n).toNat = 48 + n := by
  interval_cases n <;> rfl

theorem char_eq_of_toNat_eq {c₁ c₂ : Char} (h : c₁.toNat = c₂.toNat) : c₁ = c₂ :=
  Char.ext (UInt32.toNat.inj h)

theorem digitChar_charToDigit {c : Char} (h : c.isDigit = true) : digitChar (charToDigit c) = c := by
  obtain ⟨h1, h2⟩ := isDigit_toNat h
  apply char_eq_of_toNat_eq
  rw [digitChar_toNat (show charToDigit c < 10 from charToDigit_lt_ten h)]
  unfold charToDigit
  omega

theorem charToDigit_ne_zero {c : Char} (hd : c.isDigit = true) (h : c ≠ '0') :
    charToDigit c ≠ 0 := by
  intro h0
  apply h
  have hc := digitChar_charToDigit hd
  rw [h0] at hc
  exact hc.symm.trans rfl

theorem valOfDigits_eq_ofDigits (L : List Nat) : valOfDigits L = Nat.ofDigits 10 L := by
  induction L with
  | nil => rfl
  | cons d ds ih => simp [valOfDigits, Nat.ofDigits_cons, ih]

/-- A string is THE decimal representation of `n`: nonempty, made of
decimal digits, evaluating to `n`, with no leading zero on a multi-digit
numeral. -/
def IsDecimalRepr (s : String) (n : Nat) : Prop :=
  s.data ≠ [] ∧ (∀ c ∈ s.data, c.isDigit = true) ∧ decodeDigits s.data = n
  ∧ (2 ≤ s.data.length → s.data.head? ≠ some '0')

theorem toDecimalAux_head_ne_zero {fuel n : Nat} (hf : n < fuel) (hn : 0 < n) :
    (toDecimalAux fuel n).head? ≠ some '0' := by
  induction fuel generalizing n with
  | zero => omega
  | succ f ih =>
    unfold toDecimalAux
    split
    · next h10 =>
      simp only [List.head?_cons, ne_eq, Option.some.injEq]
      intro hc
      have hv := charToDigit_digitChar h10
      rw [hc] at hv
      have hz : charToDigit '0' = 0 := rfl
      omega
    · next h10 =>
      have hne : toDecimalAux f (n / 10) ≠ [] := toDecimalAux_ne_nil (by omega)
      obtain ⟨c, rest, hcr⟩ := List.exists_cons_of_ne_nil hne
      rw [hcr, List.cons_append, List.head?_cons]
      have hih := ih (show n / 10 < f by omega) (show 0 < n / 10 by omega)
      rw [hcr, List.head?_cons] at hih
      exact hih

theorem natToDecimal_isDecimalRepr (n : Nat) : IsDecimalRepr (natToDecimal n) n := by
  refine ⟨toDecimalAux_ne_nil (Nat.lt_succ_self n),
    fun c hc => isDigit_of_mem_toDecimalAux hc,
    decodeDigits_natToDecimal n, ?_⟩
  intro hlen
  have h10 : ¬ n < 10 := by
    intro hlt
    have hone : toDecimalAux (n + 1) n = [digitChar n] := by
      unfold toDecimalAux
      rw [if_pos hlt]
    have : (natToDecimal n).data = [digitChar n] := hone
    rw [this] at hlen
    simp at hlen
  exact toDecimalAux_head_ne_zero (Nat.lt_succ_self n) (by omega)

theorem map_digitChar_charToDigit (l : List Char) (hl : ∀ c ∈ l, c.isDigit = true) :
    l.map (fun c => digitChar (charToDigit c)) = l := by
  induction l with
  | nil => rfl
  | cons c cs ih =>
    rw [List.map_cons, digitChar_charToDigit (hl c (List.mem_cons_self c cs)),
      ih (fun c' hc' => hl c' (List.mem_cons_of_mem c hc'))]

/-- A decimal representation determines the underlying character list:
it is `"0"` for zero and the digit characters of `Nat.digits` otherwise. -/
theorem isDecimalRepr_data {s : String} {n : Nat} (h : IsDecimalRepr s n) :
    s.data = if n = 0 then ['0'] else ((Nat.digits 10 n).reverse.map digitChar) := by
  obtain ⟨hne, hdig, hval, hlead⟩ := h
  have hofd : Nat.ofDigits 10 (s.data.reverse.map charToDigit) = n := by
    rw [← valOfDigits_eq_ofDigits]
    exact hval
  obtain ⟨c, rest, hcr⟩ := List.exists_cons_of_ne_nil hne
  by_cases hn : n = 0
  · subst hn
    rw [if_pos rfl]
    have hall0 : ∀ l ∈ s.data.reverse.map charToDigit, l = 0 :=
      Nat.digits_zero_of_eq_zero (by norm_num) hofd
    have hchar : ∀ c' ∈ s.data, c' = '0' := by
      intro c' hc'
      have hmem : charToDigit c' ∈ s.data.reverse.map charToDigit :=
        List.mem_map_of_mem _ (List.mem_reverse.mpr hc')
      have hz := hall0 _ hmem
      have hcc := digitChar_charToDigit (hdig c' hc')
      rw [hz] at hcc
      exact hcc.symm
    rcases rest with _ | ⟨d, tl⟩
    · rw [hcr, hchar c (by rw [hcr]; exact List.mem_cons_self _ _)]
    · exfalso
      have hlen2 : 2 ≤ s.data.length := by
        rw [hcr]
        simp only [List.length_cons]
        omega
      have hhead := hlead hlen2
      rw [hcr, List.head?_cons] at hhead
      exact hhead (by rw [hchar c (by rw [hcr]; exact List.mem_cons_self _ _)])
  · rw [if_neg hn]
    have hdlt : ∀ l ∈ s.data.reverse.map charToDigit, l < 10 := by
      intro l hl
      obtain ⟨c', hc', rfl⟩ := List.mem_map.mp hl
      exact charToDigit_lt_ten (hdig c' (List.mem_reverse.mp hc'))
    have hlast : ∀ hL' : s.data.reverse.map charToDigit ≠ [],
        (s.data.reverse.map charToDigit).getLast hL' ≠ 0 := by
      intro hL'
      have hL? : (s.data.reverse.map charToDigit).getLast? = some (charToDigit c) := by
        rw [List.getLast?_map, List.getLast?_reverse, hcr, List.head?_cons]
        rfl
      have hgl := List.getLast?_eq_getLast (s.data.reverse.map charToDigit) hL'
      rw [hL?] at hgl
      have hgl' : (s.data.reverse.map charToDigit).getLast hL' = charToDigit c := by
        injection hgl with h'
        exact h'.symm
      rw [hgl']
      rcases rest with _ | ⟨d, tl⟩
      · intro h0
        apply hn
        rw [← hofd, hcr]
        simp only [List.reverse_cons, List.reverse_nil, List.nil_append, List.map_cons,
          List.map_nil, Nat.ofDigits_cons, Nat.ofDigits_nil, h0]
      · have hlen2 : 2 ≤ s.data.length := by
          rw [hcr]
          simp only [List.length_cons]
          omega
        have hhead := hlead hlen2
        rw [hcr, List.head?_cons] at hhead
        have hcne : c ≠ '0' := fun hh => hhead (by rw [hh])
        exact charToDigit_ne_zero (hdig c (by rw [hcr]; exact List.mem_cons_self _ _)) hcne
    have hdg : Nat.digits 10 n = s.data.reverse.map charToDigit := by
      rw [← hofd]
      exact Nat.digits_ofDigits 10 (by norm_num) _ hdlt hlast
    rw [hdg, ← List.map_reverse, List.reverse_reverse, List.map_map]
    exact (map_digitChar_charToDigit s.data hdig).symm

/-- Any string that is a decimal representation of `n` is the one the
conversion function produces. -/
theorem isDecimalRepr_unique {s : String} {n : Nat} (h : IsDecimalRepr s n) :
    s = natToDecimal n := by
  have h1 := isDecimalRepr_data h
  have h2 := isDecimalRepr_data (natToDecimal_isDecimalRepr n)
  have hd : s.data = (natToDecimal n).data := by rw [h1, h2]
  cases s
  exact (congrArg String.mk hd).trans rfl

/-- C5: for every non-negative integer `team_id`, the Team prefix
generator returns exactly the string `"MissionBagTeam_"` followed by the
decimal representation of `team_id`: the generated string is the literal
followed by `natToDecimal team_id`, that conversion is a decimal
representation, and it is the only decimal representation of `team_id`. -/
theorem generatePfx_is_decimal_repr (n : Nat) :
    SerializableTeam.generatePfx n = "MissionBagTeam_" ++ natToDecimal n
    ∧ IsDecimalRepr (natToDecimal n) n
    ∧ ∀ d : String, IsDecimalRepr d n → d = natToDecimal n :=
  ⟨rfl, natToDecimal_isDecimalRepr n, fun _ hd => isDecimalRepr_unique hd⟩

/-- Witness for C5: at `team_id = 407` the generated prefix is the
literal string `"MissionBagTeam_407"`. -/
theorem generatePfx_is_decimal_repr_witness :
    SerializableTeam.generatePfx 407 = "MissionBagTeam_" ++ "407"
    ∧ IsDecimalRepr "407" 407 := by
  have h := generatePfx_is_decimal_repr 407
  have hd : IsDecimalRepr "407" 407 := by
    unfold IsDecimalRepr
    refine ⟨by decide, by decide, by decide, by decide⟩
  exact ⟨h.1.trans (congrArg (fun d => "MissionBagTeam_" ++ d) (h.2.2 "407" hd)).symm, hd⟩

/-- C6: the Team prefix generator is injective — for every pair of
distinct team indices `a` and `b`, the generated prefixes differ. -/
theorem generatePfx_injective (a b : Nat) (hab : a ≠ b) :
    SerializableTeam.generatePfx a ≠ SerializableTeam.generatePfx b := by
  intro he
  apply hab
  unfold SerializableTeam.generatePfx at he
  have h1 : natToDecimal a = natToDecimal b := string_append_left_cancel he
  have h2 := congrArg (fun s => decodeDigits s.data) h1
  simp only [decodeDigits_natToDecimal] at h2
  exact h2

/-- Witness for C6: team indices 0 and 1 give different prefixes. -/
theorem generatePfx_injective_witness :
    (0 : Nat) ≠ 1
    ∧ SerializableTeam.generatePfx 0 ≠ SerializableTeam.generatePfx 1 :=
  ⟨by decide, generatePfx_injective 0 1 (by decide)⟩

/-- C7: enumerating the Team field-mapping registry yields exactly the
five (member name, suffix) pairs handicap/"handicap",
is_invite/"isinvite", mmr/"mmr", players_count/"numplayers",
own_team/"ownteam", in that insertion order; the serializer walks the
same suffixes in the same order. -/
theorem dataMappings_exact :
    SerializableTeam.dataMappings
      = [("handicap", "handicap"), ("is_invite", "isinvite"), ("mmr", "mmr"),
         ("players_count", "numplayers"), ("own_team", "ownteam")]
    ∧ ∀ t : SerializableTeam,
        (SerializableTeam.fieldValues t).map Prod.fst
          = SerializableTeam.dataMappings.map Prod.snd :=
  ⟨rfl, fun _ => rfl⟩

/-- C8: the five suffixes of the Team field-mapping registry are
pairwise distinct strings. -/
theorem dataMappings_suffixes_pairwise_ne :
    (SerializableTeam.dataMappings.map Prod.snd).Pairwise (fun a b => a ≠ b) := by
  decide

/-! ## The file-modified handler (`src/main.py`) -/

/-- Embeds the parsed `Player` record with the fields `src/main.py`
uses: name, mmr, killed_by_me, killed_me and profile_id. -/
structure Player where
  name : String
  mmr : Int
  killed_by_me : Bool
  killed_me : Bool
  profile_id : Int
deriving DecidableEq, Repr

/-- Embeds the frozen dataclass `Team` of `src/hunt/attributes/team.py`:
the parsed team record owning its tuple of players. -/
structure Team where
  handicap : Int
  is_invite : Bool
  mmr : Int
  own_team : Bool
  players : List Player
deriving DecidableEq, Repr

/-- An `ElementTree.ParseError` raised while reading the attributes file
(the game truncates the document mid-write). -/
structure XmlParseError where
  msg : String
deriving DecidableEq, Repr

/-- The failure modes of `parse_teams` as `src/main.py` distinguishes
them: the exceptions it catches (`AttributeError`, `AssertionError`) and,
per the spec's error taxonomy, codec errors, which it does not catch. -/
inductive TeamsExc where
  | attributeError : TeamsExc
  | assertionError : TeamsExc
  | codecError : DeserializeError → TeamsExc
deriving DecidableEq, Repr

/-- How one invocation of `attributes_file_modified` returns. -/
inductive HandlerAction where
  | skipParseFailure : HandlerAction
  | skipTeamsFailure : HandlerAction
  | warnEmptyTeams : HandlerAction
  | skipDuplicate : HandlerAction
  | savedExisting : HandlerAction
  | processedNew : HandlerAction
  | raisedError : DeserializeError → HandlerAction
deriving DecidableEq, Repr

/-- Embeds `attributes_file_modified` from `src/main.py`.  The XML parse
result, the team parser, the `hash` builtin and `save_teams_to_file`
(filesystem effects) enter as parameters; the `TEAM_HASHES` module global
is threaded as explicit state.  Returns the action taken and the updated
hash list. -/
def attributesFileModified {Doc : Type}
    (parseResult : Except XmlParseError Doc)
    (parseTeamsFn : Doc → Except TeamsExc (List Team))
    (hashTeams : List Team → Int)
    (saveTeamsToFile : List Team → Bool)
    (teamHashes : List Int) : HandlerAction × List Int :=
  match parseResult with
  | .error _ => (.skipParseFailure, teamHashes)
  | .ok doc =>
    match parseTeamsFn doc with
    | .error .attributeError => (.skipTeamsFailure, teamHashes)
    | .error .assertionError => (.skipTeamsFailure, teamHashes)
    | .error (.codecError e) => (.raisedError e, teamHashes)
    | .ok teams =>
      if teams = [] then (.warnEmptyTeams, teamHashes)
      else
        let team_hash := hashTeams teams
        if team_hash ∈ teamHashes then (.skipDuplicate, teamHashes)
        else
          let newHashes := teamHashes ++ [team_hash]
          if saveTeamsToFile teams then (.savedExisting, newHashes)
          else (.processedNew, newHashes)

/-- C9: when parsing the XML document fails, the handler catches the
failure and skips that update — the hash state is left unchanged for the
next poll — and the failure is never surfaced as a codec error: the
returned action is the skip action, which is distinct from raising any
`MissingAttributeError` or `TypeCoercionError`. -/
theorem parse_failure_skipped {Doc : Type}
    (e : XmlParseError)
    (parseTeamsFn : Doc → Except TeamsExc (List Team))
    (hashTeams : List Team → Int)
    (saveTeamsToFile : List Team → Bool)
    (teamHashes : List Int) :
    attributesFileModified (.error e) parseTeamsFn hashTeams saveTeamsToFile teamHashes
      = (.skipParseFailure, teamHashes)
    ∧ ∀ de : DeserializeError, HandlerAction.skipParseFailure ≠ .raisedError de :=
  ⟨rfl, fun _ h => nomatch h⟩

/-- C10: within one process run the handler processes each distinct
teams value at most once — the recorded hash list only ever grows, and
once a teams hash is in `TEAM_HASHES`, an invocation that parses a teams
list with that hash returns with the skip-duplicate action, before
saving to disk or logging player data, leaving the state unchanged. -/
theorem duplicate_hash_skipped {Doc : Type}
    (parseTeamsFn : Doc → Except TeamsExc (List Team))
    (hashTeams : List Team → Int)
    (saveTeamsToFile : List Team → Bool)
    (teamHashes : List Int) :
    (∀ (pr : Except XmlParseError Doc) (x : Int), x ∈ teamHashes →
        x ∈ (attributesFileModified pr parseTeamsFn hashTeams saveTeamsToFile teamHashes).2)
    ∧ (∀ (doc : Doc) (teams : List Team), parseTeamsFn doc = .ok teams → teams ≠ [] →
        hashTeams teams ∈ teamHashes →
        attributesFileModified (.ok doc) parseTeamsFn hashTeams saveTeamsToFile teamHashes
          = (.skipDuplicate, teamHashes)) := by
  constructor
  · intro pr x hx
    unfold attributesFileModified
    rcases pr with e | doc
    · exact hx
    · rcases hp : parseTeamsFn doc with e | teams
      · rcases e with _ | _ | de <;> simp only [hp] <;> exact hx
      · simp only [hp]
        by_cases h1 : teams = []
        · simp only [if_pos h1]
          exact hx
        · simp only [if_neg h1]
          by_cases h2 : hashTeams teams ∈ teamHashes
          · simp only [if_pos h2]
            exact hx
          · simp only [if_neg h2]
            by_cases h3 : saveTeamsToFile teams
            · simp only [if_pos h3]
              exact List.mem_append_left _ hx
            · simp only [if_neg h3]
              exact List.mem_append_left _ hx
  · intro doc teams hparse hne hmem
    unfold attributesFileModified
    simp only [hparse, if_neg hne, if_pos hmem]

/-- Witness for C10: with hash 7 already recorded, a poll that parses a
nonempty teams list hashing to 7 returns the skip-duplicate action with
the hash list unchanged, and recorded hashes survive any invocation. -/
theorem duplicate_hash_skipped_witness :
    ((7 : Int) ∈ ([7] : List Int)
      ∧ attributesFileModified (Except.ok ())
          (fun _ : Unit => Except.ok [(⟨0, false, 2500, true, []⟩ : Team)])
          (fun _ => 7) (fun _ => false) [7]
        = (.skipDuplicate, [7])) :=
  ⟨by decide,
   (duplicate_hash_skipped (fun _ : Unit => Except.ok [(⟨0, false, 2500, true, []⟩ : Team)])
      (fun _ => 7) (fun _ => false) [7]).2 () [⟨0, false, 2500, true, []⟩]
      rfl (by decide) (by decide)⟩

/-- Sanity evaluation: the section-8 scenario store with team-0 fields
only yields exactly one team with `mmr = 2500` and `own_team = true`. -/
theorem parse_teams_scenario_eval :
    parse_teams
      [("MissionBagTeam_0_handicap", "0"),
       ("MissionBagTeam_0_isinvite", "false"),
       ("MissionBagTeam_0_mmr", "2500"),
       ("MissionBagTeam_0_numplayers", "1"),
       ("MissionBagTeam_0_ownteam", "true")] 3
      = .ok [⟨0, false, 2500, 1, true⟩] := by
  decide

end HuntMMR
